import Mathlib

/-!
Shallow embedding of the RAG ingestion/retrieval orchestration core of
this repository (src/api/main.py) and a verification of its specification
claims.  Text is modelled as `List Char`; the remote collaborators (the
two PDF extractors, the embedding backend, the generation backend and the
vector store) are modelled as oracles that give each call's outcome, so
that the orchestration logic written in the source can be stated and
proved over them.
-/

namespace RagTfg

/-- Whitespace predicate of Python's default `str.strip` (ASCII range):
space, tab, newline, carriage return, vertical tab, form feed. -/
def pyIsSpace (c : Char) : Bool :=
  c == ' ' || c == '\t' || c == '\n' || c == '\r' || c == '\x0b' || c == '\x0c'

/-- Python `s.lstrip()`: drop leading whitespace. -/
def lstrip (s : List Char) : List Char := s.dropWhile pyIsSpace

/-- Python `s.rstrip()`: drop trailing whitespace. -/
def rstrip (s : List Char) : List Char := (s.reverse.dropWhile pyIsSpace).reverse

/-- Python `s.strip()`: drop leading and trailing whitespace. -/
def pyStrip (s : List Char) : List Char := rstrip (lstrip s)

/-- The paragraph list built by `chunk_text` (src/api/main.py line 86):
`[t.strip() for t in text.split("\n") if t.strip()]`. -/
def pyParas (text : List Char) : List (List Char) :=
  ((text.splitOn '\n').map pyStrip).filter (fun t => !t.isEmpty)

/-- Python truthiness of `max_chunks and len(chunks) >= max_chunks`
(src/api/main.py line 94): `None` and `0` are both falsy. -/
def mcReached (mc : Option Nat) (n : Nat) : Bool :=
  match mc with
  | none => false
  | some m => decide (m ≠ 0) && decide (m ≤ n)

/-- The paragraph-packing loop of `chunk_text` (src/api/main.py lines 87-100),
with the trailing-buffer append of lines 98-99 folded into the `[]` case.
The first list argument is the remaining paragraphs, then the accumulated
chunks and the current buffer. -/
def chunkLoop (cs ov : Nat) (mc : Option Nat) :
    List (List Char) → List (List Char) → List Char → List (List Char)
  | [], chunks, buf =>
      if buf ≠ [] ∧ mcReached mc chunks.length = false then chunks ++ [buf] else chunks
  | para :: rest, chunks, buf =>
      if buf.length + para.length + 1 ≤ cs then
        chunkLoop cs ov mc rest chunks (pyStrip (buf ++ '\n' :: para))
      else
        let chunks' := if buf = [] then chunks else chunks ++ [buf]
        if buf ≠ [] ∧ mcReached mc chunks'.length = true then chunks'
        else
          let tl := if ov ≠ 0 ∧ ov < buf.length then buf.drop (buf.length - ov) else []
          chunkLoop cs ov mc rest chunks' (pyStrip (tl ++ '\n' :: para))

/-- `chunk_text(text, chunk_size, overlap, max_chunks)` of src/api/main.py
lines 79-100. -/
def chunk_text (text : List Char) (cs ov : Nat) (mc : Option Nat) : List (List Char) :=
  chunkLoop cs ov mc (pyParas text) [] []

section Sanity

def c3text : List Char := "abcdefgh\nijklmnop\nqrstuvwx".toList

def c3chunk1 : List Char := "defgh\nijklmnop".toList

def c4text : List Char := "ab\ncd\nefgh".toList

def c4chunk0 : List Char := "ab\ncd".toList

def c4chunk1 : List Char := "cd\nefgh".toList

def c4tail : List Char := "\ncd".toList

def c2text : List Char := "a".toList

def c3wtext : List Char := "ab".toList

example : chunk_text c3text 10 5 none =
    ["abcdefgh".toList, "defgh\nijklmnop".toList, "lmnop\nqrstuvwx".toList] := by decide

example : chunk_text c4text 5 3 none = ["ab\ncd".toList, "cd\nefgh".toList] := by decide

example : chunk_text [] 1200 200 none = [] := by decide

example : chunk_text ("a".toList) 1200 200 (some 0) = [['a']] := by decide

example : chunk_text c3text 10 5 (some 2) = ["abcdefgh".toList, "defgh\nijklmnop".toList] := by
  decide

end Sanity

/-! ### Lemmas about `lstrip`, `rstrip`, `pyStrip` -/

theorem dropWhile_head_not (p : Char → Bool) (l : List Char) :
    ∀ c ∈ (l.dropWhile p).head?, p c = false := by
  induction l with
  | nil => simp
  | cons a l ih =>
    intro c hc
    rw [List.dropWhile_cons] at hc
    by_cases h : p a
    · rw [if_pos h] at hc
      exact ih c hc
    · rw [if_neg h] at hc
      simp only [List.head?_cons, Option.mem_def, Option.some.injEq] at hc
      subst hc
      simpa using h

theorem dropWhile_eq_self_of_head (p : Char → Bool) (l : List Char)
    (h : ∀ c ∈ l.head?, p c = false) : l.dropWhile p = l := by
  cases l with
  | nil => rfl
  | cons a l =>
    simp only [List.head?_cons, Option.mem_def, Option.some.injEq, forall_eq'] at h
    rw [List.dropWhile_cons, if_neg (by simp [h])]

theorem lstrip_head_not (l : List Char) : ∀ c ∈ (lstrip l).head?, pyIsSpace c = false :=
  dropWhile_head_not pyIsSpace l

theorem lstrip_idem (l : List Char) : lstrip (lstrip l) = lstrip l :=
  dropWhile_eq_self_of_head pyIsSpace (lstrip l) (lstrip_head_not l)

theorem lstrip_append (a b : List Char) :
    lstrip (a ++ b) = if lstrip a = [] then lstrip b else lstrip a ++ b := by
  unfold lstrip
  induction a with
  | nil => simp
  | cons x a ih =>
    simp only [List.cons_append, List.dropWhile_cons]
    by_cases h : pyIsSpace x
    · simp only [if_pos h]
      exact ih
    · simp [if_neg h]

theorem rstrip_rev (l : List Char) : rstrip l = (lstrip l.reverse).reverse := rfl

theorem rstrip_append (a b : List Char) :
    rstrip (a ++ b) = if rstrip b = [] then rstrip a else a ++ rstrip b := by
  have hrev : rstrip b = [] ↔ lstrip b.reverse = [] := by
    rw [rstrip_rev]
    simp
  rw [rstrip_rev, List.reverse_append, lstrip_append]
  by_cases h : lstrip b.reverse = []
  · rw [if_pos h, if_pos (hrev.mpr h), rstrip_rev]
  · rw [if_neg h, if_neg (fun hc => h (hrev.mp hc)), List.reverse_append,
      List.reverse_reverse, rstrip_rev]

theorem rstrip_idem (l : List Char) : rstrip (rstrip l) = rstrip l := by
  rw [rstrip_rev, rstrip_rev, List.reverse_reverse, lstrip_idem]

theorem rstrip_pfx (l : List Char) : rstrip l <+: l := by
  have h : (l.reverse.dropWhile pyIsSpace).reverse <+: l.reverse.reverse :=
    List.reverse_prefix.mpr (List.dropWhile_suffix pyIsSpace)
  rwa [List.reverse_reverse] at h

theorem head?_rstrip (l : List Char) (h : rstrip l ≠ []) : (rstrip l).head? = l.head? := by
  obtain ⟨t, ht⟩ := rstrip_pfx l
  cases hr : rstrip l with
  | nil => exact absurd hr h
  | cons x xs =>
    rw [← ht, hr]
    rfl

theorem lstrip_rstrip_lstrip (l : List Char) :
    lstrip (rstrip (lstrip l)) = rstrip (lstrip l) := by
  by_cases h : rstrip (lstrip l) = []
  · rw [h]
    rfl
  · refine dropWhile_eq_self_of_head pyIsSpace _ ?_
    rw [head?_rstrip (lstrip l) h]
    exact lstrip_head_not l

theorem lstrip_pyStrip (l : List Char) : lstrip (pyStrip l) = pyStrip l :=
  lstrip_rstrip_lstrip l

theorem rstrip_pyStrip (l : List Char) : rstrip (pyStrip l) = pyStrip l := by
  unfold pyStrip
  exact rstrip_idem (lstrip l)

theorem pyStrip_idem (l : List Char) : pyStrip (pyStrip l) = pyStrip l := by
  conv_lhs => rw [pyStrip, lstrip_pyStrip, rstrip_pyStrip]

theorem lstrip_length_le (l : List Char) : (lstrip l).length ≤ l.length := by
  have := List.IsSuffix.length_le (List.dropWhile_suffix (l := l) pyIsSpace)
  exact this

theorem rstrip_length_le (l : List Char) : (rstrip l).length ≤ l.length :=
  List.IsPrefix.length_le (rstrip_pfx l)

theorem pyStrip_length_le (l : List Char) : (pyStrip l).length ≤ l.length :=
  le_trans (rstrip_length_le (lstrip l)) (lstrip_length_le l)

/-- How the buffer reseeding `(tail + "\n" + para).strip()` of `chunk_text`
evaluates when `para` is already stripped and non-empty: the leading strip
eats into the tail only, and the paragraph survives whole. -/
theorem pyStrip_seed (t b : List Char) (hl : lstrip b = b) (hr : rstrip b = b)
    (hb : b ≠ []) :
    pyStrip (t ++ '\n' :: b) = if lstrip t = [] then b else lstrip t ++ '\n' :: b := by
  have hnl : lstrip ('\n' :: b) = b := by
    unfold lstrip
    rw [List.dropWhile_cons, if_pos (by decide)]
    exact hl
  have h1 : lstrip (t ++ '\n' :: b) = if lstrip t = [] then b else lstrip t ++ '\n' :: b := by
    rw [lstrip_append, hnl]
  rw [pyStrip, h1]
  by_cases ht : lstrip t = []
  · rw [if_pos ht]
    exact hr
  · rw [if_neg ht]
    have h2 : lstrip t ++ '\n' :: b = (lstrip t ++ ['\n']) ++ b := by simp
    rw [h2, rstrip_append, if_neg (by rw [hr]; exact hb), hr]

/-- Every paragraph produced by `pyParas` is non-empty and already stripped. -/
theorem pyParas_mem (text : List Char) :
    ∀ q ∈ pyParas text, q ≠ [] ∧ lstrip q = q ∧ rstrip q = q := by
  intro q hq
  unfold pyParas at hq
  obtain ⟨hmem, hne⟩ := List.mem_filter.mp hq
  obtain ⟨x, _, hx⟩ := List.mem_map.mp hmem
  refine ⟨?_, ?_, ?_⟩
  · intro hnil
    rw [hnil] at hne
    simp at hne
  · rw [← hx]
    exact lstrip_pyStrip x
  · rw [← hx]
    exact rstrip_pyStrip x

/-! ### Equation lemmas for `chunkLoop` -/

theorem chunkLoop_nil (cs ov : Nat) (mc : Option Nat) (chunks : List (List Char))
    (buf : List Char) :
    chunkLoop cs ov mc [] chunks buf =
      if buf ≠ [] ∧ mcReached mc chunks.length = false then chunks ++ [buf] else chunks := rfl

theorem chunkLoop_cons_fit (cs ov : Nat) (mc : Option Nat) (para : List Char)
    (rest chunks : List (List Char)) (buf : List Char)
    (h : buf.length + para.length + 1 ≤ cs) :
    chunkLoop cs ov mc (para :: rest) chunks buf =
      chunkLoop cs ov mc rest chunks (pyStrip (buf ++ '\n' :: para)) := by
  simp only [chunkLoop]
  rw [if_pos h]

theorem chunkLoop_cons_nilbuf (cs ov : Nat) (mc : Option Nat) (para : List Char)
    (rest chunks : List (List Char)) (h : ¬ para.length + 1 ≤ cs) :
    chunkLoop cs ov mc (para :: rest) chunks [] =
      chunkLoop cs ov mc rest chunks (pyStrip ('\n' :: para)) := by
  simp only [chunkLoop, List.length_nil, List.nil_append]
  rw [if_neg (by omega)]
  simp

theorem chunkLoop_cons_stop (cs ov : Nat) (mc : Option Nat) (para : List Char)
    (rest chunks : List (List Char)) (buf : List Char)
    (h : ¬ buf.length + para.length + 1 ≤ cs) (hb : buf ≠ [])
    (hr : mcReached mc (chunks ++ [buf]).length = true) :
    chunkLoop cs ov mc (para :: rest) chunks buf = chunks ++ [buf] := by
  simp only [chunkLoop]
  rw [if_neg h, if_neg hb, if_pos ⟨hb, hr⟩]

theorem chunkLoop_cons_seed (cs ov : Nat) (mc : Option Nat) (para : List Char)
    (rest chunks : List (List Char)) (buf : List Char)
    (h : ¬ buf.length + para.length + 1 ≤ cs) (hb : buf ≠ [])
    (hr : mcReached mc (chunks ++ [buf]).length = false) :
    chunkLoop cs ov mc (para :: rest) chunks buf =
      chunkLoop cs ov mc rest (chunks ++ [buf])
        (pyStrip ((if ov ≠ 0 ∧ ov < buf.length then buf.drop (buf.length - ov) else []) ++
          '\n' :: para)) := by
  simp only [chunkLoop]
  rw [if_neg h, if_neg hb, if_neg (fun hcon => Bool.false_ne_true (hr.symm.trans hcon.2))]

/-! ### The chunk length bound (claim C3) -/

/-- Length of the longest paragraph of the input text. -/
def maxParaLen (text : List Char) : Nat := ((pyParas text).map List.length).foldr max 0

theorem mem_le_foldr_max (l : List Nat) (x : Nat) (hx : x ∈ l) : x ≤ l.foldr max 0 := by
  induction l with
  | nil => cases hx
  | cons a l ih =>
    rcases List.mem_cons.mp hx with h | h
    · subst h
      exact le_max_left _ _
    · exact le_trans (ih h) (le_max_right _ _)

theorem chunkLoop_bound (cs ov L : Nat) (mc : Option Nat) :
    ∀ ps chunks buf,
      (∀ q ∈ ps, q.length ≤ L) →
      buf.length ≤ max cs (ov + 1 + L) →
      (∀ c ∈ chunks, c.length ≤ max cs (ov + 1 + L)) →
      ∀ c ∈ chunkLoop cs ov mc ps chunks buf, c.length ≤ max cs (ov + 1 + L) := by
  intro ps
  induction ps with
  | nil =>
    intro chunks buf _ hbuf hchunks c hc
    rw [chunkLoop_nil] at hc
    split at hc
    · rcases List.mem_append.mp hc with h | h
      · exact hchunks c h
      · rw [List.mem_singleton] at h
        subst h
        exact hbuf
    · exact hchunks c hc
  | cons para rest ih =>
    intro chunks buf hps hbuf hchunks c hc
    have hpara : para.length ≤ L := hps para (List.mem_cons_self _ _)
    have hrest : ∀ q ∈ rest, q.length ≤ L := fun q hq => hps q (List.mem_cons_of_mem _ hq)
    have hchunks' : ∀ x ∈ chunks ++ [buf], x.length ≤ max cs (ov + 1 + L) := by
      intro x hx
      rcases List.mem_append.mp hx with h | h
      · exact hchunks x h
      · rw [List.mem_singleton] at h
        subst h
        exact hbuf
    by_cases hfit : buf.length + para.length + 1 ≤ cs
    · rw [chunkLoop_cons_fit _ _ _ _ _ _ _ hfit] at hc
      refine ih chunks _ hrest ?_ hchunks c hc
      have h1 := pyStrip_length_le (buf ++ '\n' :: para)
      have h2 : (buf ++ '\n' :: para).length = buf.length + para.length + 1 := by
        simp only [List.length_append, List.length_cons]
        omega
      have h3 := le_max_left cs (ov + 1 + L)
      omega
    · by_cases hb0 : buf = []
      · subst hb0
        rw [chunkLoop_cons_nilbuf _ _ _ _ _ _ (by simpa using hfit)] at hc
        refine ih chunks _ hrest ?_ hchunks c hc
        have h1 := pyStrip_length_le ('\n' :: para)
        have h2 : ('\n' :: para).length = para.length + 1 := by simp
        have h3 := le_max_right cs (ov + 1 + L)
        omega
      · cases hmc : mcReached mc (chunks ++ [buf]).length with
        | true =>
          rw [chunkLoop_cons_stop _ _ _ _ _ _ _ hfit hb0 hmc] at hc
          exact hchunks' c hc
        | false =>
          rw [chunkLoop_cons_seed _ _ _ _ _ _ _ hfit hb0 hmc] at hc
          refine ih (chunks ++ [buf]) _ hrest ?_ hchunks' c hc
          by_cases hov : ov ≠ 0 ∧ ov < buf.length
          · rw [if_pos hov]
            have h1 := pyStrip_length_le (buf.drop (buf.length - ov) ++ '\n' :: para)
            have h2 : (buf.drop (buf.length - ov)).length = ov := by
              rw [List.length_drop]
              omega
            have h3 : (buf.drop (buf.length - ov) ++ '\n' :: para).length =
                ov + 1 + para.length := by
              simp only [List.length_append, List.length_cons, h2]
              omega
            have h4 := le_max_right cs (ov + 1 + L)
            omega
          · rw [if_neg hov]
            have h1 := pyStrip_length_le ([] ++ '\n' :: para)
            have h2 : (([] : List Char) ++ '\n' :: para).length = para.length + 1 := by simp
            have h3 := le_max_right cs (ov + 1 + L)
            omega

/-! ### Truncation under `max_chunks` (claim C2) -/

theorem mcReached_some (N n : Nat) (hN : 1 ≤ N) : mcReached (some N) n = decide (N ≤ n) := by
  unfold mcReached
  have h : N ≠ 0 := by omega
  simp [h]

theorem chunkLoop_none_append (cs ov : Nat) :
    ∀ ps chunks buf,
      chunkLoop cs ov none ps chunks buf = chunks ++ chunkLoop cs ov none ps [] buf := by
  intro ps
  induction ps with
  | nil =>
    intro chunks buf
    rw [chunkLoop_nil, chunkLoop_nil]
    by_cases hb0 : buf = []
    · rw [if_neg (fun h => h.1 hb0), if_neg (fun h => h.1 hb0)]
      simp
    · rw [if_pos ⟨hb0, rfl⟩, if_pos ⟨hb0, rfl⟩]
      simp
  | cons para rest ih =>
    intro chunks buf
    by_cases hfit : buf.length + para.length + 1 ≤ cs
    · rw [chunkLoop_cons_fit _ _ _ _ _ _ _ hfit, chunkLoop_cons_fit _ _ _ _ _ _ _ hfit]
      exact ih chunks _
    · by_cases hb0 : buf = []
      · subst hb0
        rw [chunkLoop_cons_nilbuf _ _ _ _ _ _ (by simpa using hfit),
          chunkLoop_cons_nilbuf _ _ _ _ _ _ (by simpa using hfit)]
        exact ih chunks _
      · rw [chunkLoop_cons_seed _ _ none _ _ _ _ hfit hb0 rfl,
          chunkLoop_cons_seed _ _ none _ _ _ _ hfit hb0 rfl]
        rw [ih (chunks ++ [buf]) _, ih ([] ++ [buf]) _]
        simp

theorem chunkLoop_take (cs ov N : Nat) (hN : 1 ≤ N) :
    ∀ ps chunks buf, chunks.length < N →
      chunkLoop cs ov (some N) ps chunks buf = (chunkLoop cs ov none ps chunks buf).take N := by
  intro ps
  induction ps with
  | nil =>
    intro chunks buf hlen
    rw [chunkLoop_nil, chunkLoop_nil]
    have h1 : mcReached (some N) chunks.length = false := by
      rw [mcReached_some _ _ hN]
      exact decide_eq_false (by omega)
    rw [h1]
    by_cases hb0 : buf = []
    · rw [if_neg (fun h => h.1 hb0), if_neg (fun h => h.1 hb0)]
      exact (List.take_of_length_le (le_of_lt hlen)).symm
    · rw [if_pos ⟨hb0, rfl⟩, if_pos ⟨hb0, rfl⟩]
      refine (List.take_of_length_le ?_).symm
      simp only [List.length_append, List.length_cons, List.length_nil]
      omega
  | cons para rest ih =>
    intro chunks buf hlen
    by_cases hfit : buf.length + para.length + 1 ≤ cs
    · rw [chunkLoop_cons_fit _ _ _ _ _ _ _ hfit, chunkLoop_cons_fit _ _ _ _ _ _ _ hfit]
      exact ih chunks _ hlen
    · by_cases hb0 : buf = []
      · subst hb0
        rw [chunkLoop_cons_nilbuf _ _ _ _ _ _ (by simpa using hfit),
          chunkLoop_cons_nilbuf _ _ _ _ _ _ (by simpa using hfit)]
        exact ih chunks _ hlen
      · have hlen1 : (chunks ++ [buf]).length = chunks.length + 1 := by simp
        by_cases hfull : N ≤ chunks.length + 1
        · rw [chunkLoop_cons_stop _ _ (some N) _ _ _ _ hfit hb0
            (by rw [mcReached_some _ _ hN, hlen1]; exact decide_eq_true hfull)]
          rw [chunkLoop_cons_seed _ _ none _ _ _ _ hfit hb0 rfl]
          rw [chunkLoop_none_append]
          refine (List.take_left' ?_).symm
          rw [hlen1]
          omega
        · rw [chunkLoop_cons_seed _ _ (some N) _ _ _ _ hfit hb0
            (by rw [mcReached_some _ _ hN, hlen1]; exact decide_eq_false hfull)]
          rw [chunkLoop_cons_seed _ _ none _ _ _ _ hfit hb0 rfl]
          refine ih (chunks ++ [buf]) _ ?_
          rw [hlen1]
          omega

/-! ### The overlap chain (claim C4) -/

/-- The amended overlap property between two consecutive chunks: when the
earlier chunk is longer than `ov`, its last `ov` characters, with leading
whitespace removed, are a prefix of the later chunk. -/
def overlapLink (ov : Nat) (a b : List Char) : Prop :=
  ov < a.length → lstrip (a.drop (a.length - ov)) <+: b

theorem overlapLink_extend (ov : Nat) (a b c : List Char) (h : overlapLink ov a b) :
    overlapLink ov a (b ++ c) := fun hlen => (h hlen).trans (List.prefix_append b c)

theorem chain_chunkLoop (cs ov : Nat) (mc : Option Nat) :
    ∀ ps chunks buf,
      (∀ q ∈ ps, q ≠ [] ∧ lstrip q = q ∧ rstrip q = q) →
      lstrip buf = buf →
      (buf = [] → chunks = []) →
      List.Chain' (overlapLink ov) (chunks ++ [buf]) →
      List.Chain' (overlapLink ov) (chunkLoop cs ov mc ps chunks buf) := by
  intro ps
  induction ps with
  | nil =>
    intro chunks buf _ _ _ hchain
    rw [chunkLoop_nil]
    split
    · exact hchain
    · exact (List.chain'_append.mp hchain).1
  | cons para rest ih =>
    intro chunks buf hps hlbuf hbe hchain
    obtain ⟨hpne, hpl, hpr⟩ := hps para (List.mem_cons_self _ _)
    have hrest : ∀ q ∈ rest, q ≠ [] ∧ lstrip q = q ∧ rstrip q = q :=
      fun q hq => hps q (List.mem_cons_of_mem _ hq)
    by_cases hfit : buf.length + para.length + 1 ≤ cs
    · rw [chunkLoop_cons_fit _ _ _ _ _ _ _ hfit]
      by_cases hb0 : buf = []
      · subst hb0
        have hchunks : chunks = [] := hbe rfl
        subst hchunks
        have hseed := pyStrip_seed [] para hpl hpr hpne
        have hc0 : lstrip ([] : List Char) = [] := rfl
        rw [if_pos hc0, List.nil_append] at hseed
        rw [List.nil_append, hseed]
        refine ih [] para hrest hpl (fun _ => rfl) ?_
        rw [List.nil_append]
        exact List.chain'_singleton para
      · have hseed : pyStrip (buf ++ '\n' :: para) = buf ++ '\n' :: para := by
          rw [pyStrip_seed buf para hpl hpr hpne, hlbuf, if_neg hb0]
        rw [hseed]
        refine ih chunks (buf ++ '\n' :: para) hrest ?_ ?_ ?_
        · have h := lstrip_pyStrip (buf ++ '\n' :: para)
          rw [hseed] at h
          exact h
        · intro h
          exact absurd (List.append_eq_nil.mp h).1 hb0
        · rcases List.chain'_append.mp hchain with ⟨h1, _, h3⟩
          refine List.chain'_append.mpr ⟨h1, List.chain'_singleton _, ?_⟩
          intro x hx y hy
          simp only [List.head?_cons, Option.mem_def, Option.some.injEq] at hy
          subst hy
          exact overlapLink_extend ov x buf ('\n' :: para) (h3 x hx buf (by simp))
    · by_cases hb0 : buf = []
      · subst hb0
        have hchunks : chunks = [] := hbe rfl
        subst hchunks
        rw [chunkLoop_cons_nilbuf _ _ _ _ _ _ (by simpa using hfit)]
        have hseed := pyStrip_seed [] para hpl hpr hpne
        have hc0 : lstrip ([] : List Char) = [] := rfl
        rw [if_pos hc0, List.nil_append] at hseed
        rw [hseed]
        refine ih [] para hrest hpl (fun _ => rfl) ?_
        rw [List.nil_append]
        exact List.chain'_singleton para
      · cases hmc : mcReached mc (chunks ++ [buf]).length with
        | true =>
          rw [chunkLoop_cons_stop _ _ _ _ _ _ _ hfit hb0 hmc]
          exact hchain
        | false =>
          rw [chunkLoop_cons_seed _ _ _ _ _ _ _ hfit hb0 hmc]
          have hbuf' := pyStrip_seed
            (if ov ≠ 0 ∧ ov < buf.length then buf.drop (buf.length - ov) else [])
            para hpl hpr hpne
          refine ih (chunks ++ [buf]) _ hrest (lstrip_pyStrip _) ?_ ?_
          · intro hnil
            exfalso
            rw [hbuf'] at hnil
            by_cases hlt :
                lstrip (if ov ≠ 0 ∧ ov < buf.length then
                  buf.drop (buf.length - ov) else []) = []
            · rw [if_pos hlt] at hnil
              exact hpne hnil
            · rw [if_neg hlt] at hnil
              exact List.cons_ne_nil '\n' para (List.append_eq_nil.mp hnil).2
          · refine List.chain'_append.mpr ⟨hchain, List.chain'_singleton _, ?_⟩
            intro x hx y hy
            rw [List.getLast?_concat] at hx
            simp only [Option.mem_def, Option.some.injEq, List.head?_cons] at hx hy
            subst hx
            subst hy
            intro hlen
            by_cases hov : ov ≠ 0 ∧ ov < buf.length
            · rw [hbuf', if_pos hov]
              by_cases hlt : lstrip (buf.drop (buf.length - ov)) = []
              · rw [if_pos hlt, hlt]
                exact List.nil_prefix
              · rw [if_neg hlt]
                exact List.prefix_append _ _
            · have h0 : ov = 0 := by
                by_contra hne
                exact hov ⟨hne, hlen⟩
              subst h0
              rw [Nat.sub_zero, List.drop_length]
              exact List.nil_prefix

/-! ### Claim theorems C2, C3, C4 -/

/-- Claim C2 counterexample: with `max_chunks = 0` explicitly set, Python's
truthiness test `if max_chunks` treats the ceiling as absent, so `chunk_text`
returns one chunk, more than the requested ceiling of zero. -/
theorem c2_cex_max_chunks_zero :
    chunk_text c2text 1200 200 (some 0) = [c2text] ∧
    0 < (chunk_text c2text 1200 200 (some 0)).length := by decide

/-- Claim C2 (amended): if `max_chunks = N` is set with `N ≥ 1`, `chunk_text`
returns the first `N` chunks of the unbounded run, hence at most `N` chunks
regardless of input size, and exactly `N` chunks whenever the unbounded run
would have produced at least `N` (the ceiling is reached with input left). -/
theorem c2_max_chunks_ceiling (text : List Char) (cs ov N : Nat) (hN : 1 ≤ N) :
    chunk_text text cs ov (some N) = (chunk_text text cs ov none).take N ∧
    (chunk_text text cs ov (some N)).length ≤ N ∧
    (N ≤ (chunk_text text cs ov none).length →
      (chunk_text text cs ov (some N)).length = N) := by
  have h : chunk_text text cs ov (some N) = (chunk_text text cs ov none).take N :=
    chunkLoop_take cs ov N hN (pyParas text) [] []
      (by simp only [List.length_nil]; omega)
  refine ⟨h, ?_, ?_⟩
  · rw [h, List.length_take]
    exact min_le_left _ _
  · intro hge
    rw [h, List.length_take]
    omega

/-- Witness for C2: on a one-line text with ceiling 1, the bounded run is the
`take 1` of the unbounded run and has at most one chunk. -/
theorem c2_witness :
    chunk_text c2text 1200 200 (some 1) = (chunk_text c2text 1200 200 none).take 1 ∧
    (chunk_text c2text 1200 200 (some 1)).length ≤ 1 :=
  ⟨(c2_max_chunks_ceiling c2text 1200 200 1 (by decide)).1,
   (c2_max_chunks_ceiling c2text 1200 200 1 (by decide)).2.1⟩

/-- Claim C3 counterexample: with `chunk_size = 10` and `overlap = 5`, the
second chunk produced from `c3text` has length 14 > 10, yet every paragraph
of the text has length 8 ≤ 10 and that chunk is not a paragraph of the text:
the overflow comes from the overlap-tail reseeding, not from a single long
paragraph. -/
theorem c3_cex_oversized_seed :
    (chunk_text c3text 10 5 none)[1]? = some c3chunk1 ∧
    10 < c3chunk1.length ∧
    ((pyParas c3text).all fun p => decide (p.length ≤ 10)) = true ∧
    c3chunk1 ∉ pyParas c3text := by decide

/-- Claim C3 (amended): every chunk returned by `chunk_text` has length at
most `chunk_size`, except chunks formed at a flush boundary from an overlap
tail and/or a single long paragraph, which are never extended further; hence
every chunk's length is bounded by
`max chunk_size (overlap + 1 + length of the longest paragraph)`. -/
theorem c3_chunk_length_bound (text : List Char) (cs ov : Nat) (mc : Option Nat)
    (c : List Char) (hc : c ∈ chunk_text text cs ov mc) :
    c.length ≤ max cs (ov + 1 + maxParaLen text) := by
  refine chunkLoop_bound cs ov (maxParaLen text) mc (pyParas text) [] [] ?_
    (Nat.zero_le _) (fun x hx => absurd hx (List.not_mem_nil x)) c hc
  intro q hq
  exact mem_le_foldr_max _ _ (List.mem_map_of_mem List.length hq)

/-- Witness for C3: the single chunk of a two-character text is a member of
the output and satisfies the length bound. -/
theorem c3_witness :
    c3wtext ∈ chunk_text c3wtext 1200 200 none ∧
    c3wtext.length ≤ max 1200 (200 + 1 + maxParaLen c3wtext) :=
  ⟨by decide, c3_chunk_length_bound c3wtext 1200 200 none c3wtext (by decide)⟩

/-- Claim C4 counterexample: with `chunk_size = 5` and `overlap = 3`, the last
3 characters of the first chunk are `"\ncd"`, but the second chunk starts with
`"cd"`: the seeded tail is whitespace-stripped, so the last `overlap`
characters do not literally reappear as the leading content of the next
chunk. -/
theorem c4_cex_overlap_stripped :
    chunk_text c4text 5 3 none = [c4chunk0, c4chunk1] ∧
    c4chunk0.drop (c4chunk0.length - 3) = c4tail ∧
    ¬ (c4tail <+: c4chunk1) := by decide

/-- Claim C4 (amended): for every pair of consecutive chunks, when the earlier
chunk is longer than `overlap`, its last `overlap` characters with their
leading whitespace removed (the seed of the next buffer is whitespace-stripped
before the triggering paragraph is appended) are a prefix of the later
chunk. -/
theorem c4_overlap_chain (text : List Char) (cs ov : Nat) (mc : Option Nat) :
    List.Chain' (overlapLink ov) (chunk_text text cs ov mc) := by
  refine chain_chunkLoop cs ov mc (pyParas text) [] [] (pyParas_mem text) rfl
    (fun _ => rfl) ?_
  rw [List.nil_append]
  exact List.chain'_singleton []

/-! ### PDF extraction fallback (claim C5)

The two extractors (pypdf and PyMuPDF) are external collaborators; they are
modelled as oracles mapping the page bound to either extracted text or a
raised exception. -/

/-- The value the variable `txt` holds after the primary `try` block of
`read_pdf` (src/api/main.py lines 54-58): the primary's text, or `""` when
the primary raised. -/
def primText : Except Unit (List Char) → List Char
  | .ok t => t
  | .error _ => []

/-- The secondary-extractor preference test of src/api/main.py lines 61-63:
`if txt2 and len(txt2.strip()) > len(txt.strip()): txt = txt2`, with a raised
secondary swallowed (line 64-65). -/
def secPick (txt : List Char) : Except Unit (List Char) → List Char
  | .ok t2 => if t2 ≠ [] ∧ (pyStrip txt).length < (pyStrip t2).length then t2 else txt
  | .error _ => txt

/-- `read_pdf` (src/api/main.py lines 53-66): try the primary extractor,
and when it raised or produced under 20 trimmed characters, consult the
secondary with the same page bound; `txt or ""` is the identity here because
the empty text is already `[]`. -/
def read_pdf (prim sec : Option Nat → Except Unit (List Char))
    (maxPages : Option Nat) : List Char :=
  let txt := primText (prim maxPages)
  if txt = [] ∨ (pyStrip txt).length < 20 then secPick txt (sec maxPages) else txt

/-- Claim C5: when the primary extractor raises or returns text with fewer
than 20 trimmed characters, the secondary extractor is consulted with the
same page bound, and if its result is non-empty and strictly longer by
trimmed length, `read_pdf` returns the secondary's text; extractor failures
are swallowed, degrading to the empty text, never propagated. -/
theorem c5_pdf_fallback (prim sec : Option Nat → Except Unit (List Char))
    (mp : Option Nat) (t2 : List Char) :
    ((pyStrip (primText (prim mp))).length < 20 → sec mp = .ok t2 → t2 ≠ [] →
      (pyStrip (primText (prim mp))).length < (pyStrip t2).length →
      read_pdf prim sec mp = t2) ∧
    (prim mp = .error () → sec mp = .error () → read_pdf prim sec mp = []) := by
  constructor
  · intro h20 hsec hne hlonger
    simp only [read_pdf]
    rw [if_pos (Or.inr h20), hsec]
    simp only [secPick]
    rw [if_pos ⟨hne, hlonger⟩]
  · intro hp hs
    simp [read_pdf, hp, hs, primText, secPick]

def c5primText : List Char := "hi".toList

def c5prim : Option Nat → Except Unit (List Char) := fun _ => Except.ok c5primText

def c5fifty : List Char := "XXXXXXXXXXXXXXXXXXXXXXXXXXXXXXXXXXXXXXXXXXXXXXXXXX".toList

def c5sec : Option Nat → Except Unit (List Char) := fun _ => Except.ok c5fifty

/-- Witness for C5: a 2-character primary result and a 50-character secondary
result yield the secondary's 50 characters. -/
theorem c5_witness : read_pdf c5prim c5sec none = c5fifty ∧ c5fifty.length = 50 :=
  ⟨(c5_pdf_fallback c5prim c5sec none c5fifty).1 (by decide) rfl (by decide) (by decide),
   by decide⟩

/-! ### Embedding retry protocol (claims C6, C7)

One POST to the embeddings endpoint, with `raise_for_status` and the JSON
field access, is modelled as an oracle mapping the attempt index to an
outcome: a vector, a `ReadTimeout`/`RequestException` (retried by the
`except` clause of src/api/main.py line 119), or any other exception (for
instance a `KeyError` because the response lacks the `embedding` field),
which the `except` clause does not catch. -/

inductive CallOutcome where
  | ok (v : List Int)
  | netErr (e : Nat)
  | badResp (e : Nat)
deriving DecidableEq

/-- Result of the per-text retry loop, recording the backoff sleeps
performed, in order. -/
inductive EmbedResult where
  | success (v : List Int) (sleeps : List Nat)
  | unavailable (e : Nat) (sleeps : List Nat)
  | propagated (e : Nat) (sleeps : List Nat)
deriving DecidableEq

/-- The `while True` retry loop of `embed_texts` (src/api/main.py lines
108-123) for one text: on a network-level failure increment `attempts`,
raise a 503 carrying the last error once `attempts >= 3`, otherwise sleep
`2 * attempts` seconds and retry. -/
def embedLoop (b : Nat → CallOutcome) (attempts : Nat) (sleeps : List Nat) : EmbedResult :=
  match b attempts with
  | .ok v => .success v sleeps.reverse
  | .badResp e => .propagated e sleeps.reverse
  | .netErr e =>
    if h : attempts + 1 ≥ 3 then .unavailable e sleeps.reverse
    else embedLoop b (attempts + 1) (2 * (attempts + 1) :: sleeps)
termination_by 3 - attempts
decreasing_by omega

theorem embedLoop_ok (b : Nat → CallOutcome) (a : Nat) (s : List Nat) (v : List Int)
    (h : b a = .ok v) : embedLoop b a s = .success v s.reverse := by
  unfold embedLoop
  simp only [h]

theorem embedLoop_bad (b : Nat → CallOutcome) (a : Nat) (s : List Nat) (e : Nat)
    (h : b a = .badResp e) : embedLoop b a s = .propagated e s.reverse := by
  unfold embedLoop
  simp only [h]

theorem embedLoop_net_stop (b : Nat → CallOutcome) (a : Nat) (s : List Nat) (e : Nat)
    (h : b a = .netErr e) (h3 : 3 ≤ a + 1) : embedLoop b a s = .unavailable e s.reverse := by
  unfold embedLoop
  simp only [h]
  rw [dif_pos h3]

theorem embedLoop_net_retry (b : Nat → CallOutcome) (a : Nat) (s : List Nat) (e : Nat)
    (h : b a = .netErr e) (h3 : a + 1 < 3) :
    embedLoop b a s = embedLoop b (a + 1) (2 * (a + 1) :: s) := by
  conv_lhs => rw [embedLoop]
  simp only [h]
  rw [dif_neg (by omega)]

inductive EmbedErr where
  | unavailable (e : Nat)
  | propagated (e : Nat)
deriving DecidableEq

/-- How the outer `for t in texts` loop of `embed_texts` combines one text's
outcome with the remaining texts' outcomes: a success is appended to `out`,
any exception aborts the whole call. -/
def embedStep : EmbedResult → Except EmbedErr (List (List Int)) →
    Except EmbedErr (List (List Int))
  | .success v _, .ok vs => .ok (v :: vs)
  | .success _ _, .error e => .error e
  | .unavailable e _, _ => .error (.unavailable e)
  | .propagated e _, _ => .error (.propagated e)

/-- `embed_texts` (src/api/main.py lines 105-124): one independent retried
call per text, in order, each starting with `attempts = 0`. -/
def embed_texts (backend : List Char → Nat → CallOutcome) :
    List (List Char) → Except EmbedErr (List (List Int))
  | [] => .ok []
  | t :: rest => embedStep (embedLoop (backend t) 0 []) (embed_texts backend rest)

/-- Claim C6: for each input text, `embed_texts` retries a network-failing
embedding call up to 3 attempts, sleeping `attempt * 2` seconds between
attempts (2s then 4s); after a third failed attempt it fails with the 503
`BackendUnavailable` error carrying the last underlying error, and a backend
failing twice then succeeding yields the successful vector. -/
theorem c6_embed_retry (backend : List Char → Nat → CallOutcome) (t : List Char)
    (e0 e1 e2 : Nat) (v : List Int)
    (h0 : backend t 0 = .netErr e0) (h1 : backend t 1 = .netErr e1) :
    (backend t 2 = .netErr e2 →
      embedLoop (backend t) 0 [] = .unavailable e2 [2, 4] ∧
      embed_texts backend [t] = .error (.unavailable e2)) ∧
    (backend t 2 = .ok v →
      embedLoop (backend t) 0 [] = .success v [2, 4] ∧
      embed_texts backend [t] = .ok [v]) := by
  have step01 : embedLoop (backend t) 0 [] = embedLoop (backend t) 1 [2] := by
    have h := embedLoop_net_retry (backend t) 0 [] e0 h0 (by omega)
    simpa using h
  have step12 : embedLoop (backend t) 1 [2] = embedLoop (backend t) 2 [4, 2] := by
    have h := embedLoop_net_retry (backend t) 1 [2] e1 h1 (by omega)
    simpa using h
  constructor
  · intro h2
    have hall : embedLoop (backend t) 0 [] = .unavailable e2 [2, 4] := by
      rw [step01, step12]
      have h := embedLoop_net_stop (backend t) 2 [4, 2] e2 h2 (by omega)
      simpa using h
    refine ⟨hall, ?_⟩
    simp only [embed_texts, hall, embedStep]
  · intro h2
    have hall : embedLoop (backend t) 0 [] = .success v [2, 4] := by
      rw [step01, step12]
      have h := embedLoop_ok (backend t) 2 [4, 2] v h2
      simpa using h
    refine ⟨hall, ?_⟩
    simp only [embed_texts, hall, embedStep]

def qtext : List Char := "q".toList

def c6backend : List Char → Nat → CallOutcome := fun _ n =>
  if n = 0 then .netErr 5 else if n = 1 then .netErr 6 else .ok [3]

/-- Witness for C6: a backend failing on attempts 0 and 1 and succeeding on
attempt 2 yields the successful vector after backoffs of 2s and 4s. -/
theorem c6_witness :
    embedLoop (c6backend qtext) 0 [] = .success [3] [2, 4] ∧
    embed_texts c6backend [qtext] = .ok [[3]] :=
  (c6_embed_retry c6backend qtext 5 6 0 [3] rfl rfl).2 rfl

/-- Claim C7: an error that is not a timeout or `RequestException` (for
instance the `KeyError` from a well-formed response lacking the `embedding`
field) is not retried: the loop result is fixed by the first call alone,
with no backoff sleeps, and the error propagates out of `embed_texts`
immediately, aborting the remaining texts. -/
theorem c7_embed_no_retry (backend : List Char → Nat → CallOutcome) (t : List Char)
    (rest : List (List Char)) (e : Nat) (h : backend t 0 = .badResp e) :
    embedLoop (backend t) 0 [] = .propagated e [] ∧
    embed_texts backend (t :: rest) = .error (.propagated e) := by
  have hl : embedLoop (backend t) 0 [] = .propagated e [] := by
    have h' := embedLoop_bad (backend t) 0 [] e h
    simpa using h'
  refine ⟨hl, ?_⟩
  simp only [embed_texts, hl, embedStep]

def c7backend : List Char → Nat → CallOutcome := fun _ n =>
  if n = 0 then .badResp 9 else .netErr 0

/-- Witness for C7: a first-call malformed-response error propagates at once
with no sleeps, regardless of what later attempts would have returned. -/
theorem c7_witness :
    embedLoop (c7backend qtext) 0 [] = .propagated 9 [] ∧
    embed_texts c7backend [qtext] = .error (.propagated 9) :=
  c7_embed_no_retry c7backend qtext [] 9 rfl

/-! ### Generation retry and chat orchestration (claims C8, C9)

One POST to the chat endpoint is modelled as an oracle mapping the attempt
index to an outcome: a 200 response whose extracted content is
`(data.get("message", {}) or {}).get("content") or data.get("response", "")`
(possibly empty), or a `ReadTimeout`/`RequestException`. -/

inductive GenOutcome where
  | ok (content : List Char)
  | netErr (e : Nat)
deriving DecidableEq

inductive GenResult where
  | success (ans : List Char) (sleeps : List Nat)
  | unavailable (e : Nat) (sleeps : List Nat)
  | emptyResult (sleeps : List Nat)
deriving DecidableEq

/-- The `while True` retry loop of `chat` (src/api/main.py lines 276-290):
an empty extracted answer raises a 503 that the `except` clause does not
catch; a network failure increments `attempts`, raises a 503 once
`attempts >= 2`, and otherwise sleeps `4 * attempts` seconds and retries. -/
def genLoop (g : Nat → GenOutcome) (attempts : Nat) (sleeps : List Nat) : GenResult :=
  match g attempts with
  | .ok ans => if ans = [] then .emptyResult sleeps.reverse else .success ans sleeps.reverse
  | .netErr e =>
    if h : attempts + 1 ≥ 2 then .unavailable e sleeps.reverse
    else genLoop g (attempts + 1) (4 * (attempts + 1) :: sleeps)
termination_by 2 - attempts
decreasing_by omega

theorem genLoop_ok_some (g : Nat → GenOutcome) (a : Nat) (s : List Nat) (ans : List Char)
    (h : g a = .ok ans) (hne : ans ≠ []) : genLoop g a s = .success ans s.reverse := by
  unfold genLoop
  simp only [h]
  rw [if_neg hne]

theorem genLoop_ok_empty (g : Nat → GenOutcome) (a : Nat) (s : List Nat)
    (h : g a = .ok []) : genLoop g a s = .emptyResult s.reverse := by
  unfold genLoop
  simp [h]

theorem genLoop_net_stop (g : Nat → GenOutcome) (a : Nat) (s : List Nat) (e : Nat)
    (h : g a = .netErr e) (h2 : 2 ≤ a + 1) : genLoop g a s = .unavailable e s.reverse := by
  unfold genLoop
  simp only [h]
  rw [dif_pos h2]

theorem genLoop_net_retry (g : Nat → GenOutcome) (a : Nat) (s : List Nat) (e : Nat)
    (h : g a = .netErr e) (h2 : a + 1 < 2) :
    genLoop g a s = genLoop g (a + 1) (4 * (a + 1) :: s) := by
  conv_lhs => rw [genLoop]
  simp only [h]
  rw [dif_neg (by omega)]

/-- The `"\n\n"` separator of src/api/main.py line 261. -/
def blankSep : List Char := "\n\n".toList

/-- `"\n\n".flatten(texts)`. -/
def joinBlank (texts : List (List Char)) : List Char := List.intercalate blankSep texts

/-- Context assembly of `chat` (src/api/main.py lines 258-262): `ctx`/`used`
stay `""`/`0` unless the search returned a non-empty first hit list. The
search result is a list of per-query hit lists (one query vector is sent),
each hit carrying its `text` field. -/
def chatCtxUsed (hits : List (List (List Char))) : List Char × Nat :=
  match hits with
  | [] => ([], 0)
  | h0 :: _ => if 0 < h0.length then (joinBlank h0, h0.length) else ([], 0)

def promptHeader : List Char :=
  "Usa estrictamente el contexto para responder. Si el contexto no contiene la respuesta, indica claramente que no está en los documentos.\n\n".toList

def ctxTag : List Char := "[Contexto]\n".toList

def questionTag : List Char := "\n\n[Pregunta]\n".toList

def answerTag : List Char := "\n\nRespuesta:".toList

/-- The generation prompt of src/api/main.py lines 264-268. -/
def buildPrompt (ctx q : List Char) : List Char :=
  promptHeader ++ ctxTag ++ ctx ++ questionTag ++ q ++ answerTag

inductive ChatErr where
  | unavailable (e : Nat)
  | emptyGen
deriving DecidableEq

/-- How `chat` turns the retry loop's result into a response. -/
def chatStep (used : Nat) : GenResult → Except ChatErr (List Char × Nat)
  | .success ans _ => .ok (ans, used)
  | .unavailable e _ => .error (.unavailable e)
  | .emptyResult _ => .error .emptyGen

/-- `chat` (src/api/main.py lines 244-290) downstream of the search: given
the search result and the generation oracle (a function of the prompt), it
assembles the context, builds the prompt, and runs the generation retry
loop.  The question embedding and the vector search themselves are external
calls whose outcome is the `hits` argument. -/
def chat (hits : List (List (List Char))) (q : List Char)
    (gen : List Char → Nat → GenOutcome) : Except ChatErr (List Char × Nat) :=
  chatStep (chatCtxUsed hits).2
    (genLoop (gen (buildPrompt (chatCtxUsed hits).1 q)) 0 [])

/-- Claim C8: the context is the hit texts in ranked order joined by a blank
line (empty for zero hits), `used_docs` is the number of hits used as
context, a successful generation returns the answer with that count, and a
query against an empty collection (one query, zero hits) succeeds with an
empty context section in the prompt and `used_docs = 0`. -/
theorem c8_chat_context (hits : List (List (List Char))) (q ans : List Char)
    (gen : List Char → Nat → GenOutcome) :
    chatCtxUsed hits = (joinBlank (hits.headD []), (hits.headD []).length) ∧
    (gen (buildPrompt (joinBlank (hits.headD [])) q) 0 = .ok ans → ans ≠ [] →
      chat hits q gen = .ok (ans, (hits.headD []).length)) ∧
    (hits = [[]] → gen (buildPrompt [] q) 0 = .ok ans → ans ≠ [] →
      chat hits q gen = .ok (ans, 0)) := by
  have hctx : chatCtxUsed hits = (joinBlank (hits.headD []), (hits.headD []).length) := by
    cases hits with
    | nil => rfl
    | cons h0 hs =>
      by_cases h : 0 < h0.length
      · simp only [chatCtxUsed, List.headD_cons]
        rw [if_pos h]
      · have h0nil : h0 = [] := by
          cases h0 with
          | nil => rfl
          | cons a l => exact absurd (Nat.succ_pos l.length) h
        subst h0nil
        rfl
  have hmain : gen (buildPrompt (joinBlank (hits.headD [])) q) 0 = .ok ans → ans ≠ [] →
      chat hits q gen = .ok (ans, (hits.headD []).length) := by
    intro hg hne
    have h1 : (chatCtxUsed hits).1 = joinBlank (hits.headD []) := by rw [hctx]
    have h2 : (chatCtxUsed hits).2 = (hits.headD []).length := by rw [hctx]
    simp only [chat, h1, h2]
    rw [genLoop_ok_some _ _ _ _ hg hne]
    simp only [chatStep, List.reverse_nil]
  refine ⟨hctx, hmain, ?_⟩
  intro h00 hg hne
  subst h00
  exact hmain hg hne

def c8answer : List Char := "A".toList

def c8gen : List Char → Nat → GenOutcome := fun _ _ => GenOutcome.ok c8answer

/-- Witness for C8: against an empty collection (one query vector, zero
hits), chat succeeds with an empty context and `used_docs = 0`. -/
theorem c8_witness : chat [[]] qtext c8gen = .ok (c8answer, 0) :=
  (c8_chat_context [[]] qtext c8answer c8gen).2.2 rfl rfl (by decide)

/-- Claim C9: the generation call is retried on network failure or timeout
up to 2 attempts total with a single backoff of `1 * 4` seconds, failing
with the 503 `BackendUnavailable` error on exhaustion; a successful response
with no extractable content fails with the 503 `EmptyGenerationResult`
error, determined by the first call alone, hence not retried. -/
theorem c9_gen_retry (g : Nat → GenOutcome) (e0 e1 : Nat) (ans : List Char) :
    (g 0 = .netErr e0 → g 1 = .netErr e1 → genLoop g 0 [] = .unavailable e1 [4]) ∧
    (g 0 = .netErr e0 → g 1 = .ok ans → ans ≠ [] → genLoop g 0 [] = .success ans [4]) ∧
    (g 0 = .ok [] → genLoop g 0 [] = .emptyResult []) := by
  refine ⟨?_, ?_, ?_⟩
  · intro h0 h1
    have step := genLoop_net_retry g 0 [] e0 h0 (by omega)
    rw [step]
    have h := genLoop_net_stop g 1 [4 * (0 + 1)] e1 h1 (by omega)
    simpa using h
  · intro h0 h1 hne
    have step := genLoop_net_retry g 0 [] e0 h0 (by omega)
    rw [step]
    have h := genLoop_ok_some g 1 [4 * (0 + 1)] ans h1 hne
    simpa using h
  · intro h0
    have h := genLoop_ok_empty g 0 [] h0
    simpa using h

def c9gen : Nat → GenOutcome := fun n =>
  if n = 0 then GenOutcome.netErr 7 else GenOutcome.ok c8answer

/-- Witness for C9: a backend failing once then answering succeeds after a
single 4-second backoff. -/
theorem c9_witness : genLoop c9gen 0 [] = .success c8answer [4] :=
  (c9_gen_retry c9gen 7 0 c8answer).2.1 rfl rfl (by decide)

/-! ### Ingestion orchestration (claims C1, C10)

A file to ingest is modelled by its name together with oracles for the
outcomes of the external steps of its pipeline: `load_document` (the raw
text, or a raised exception carrying a message), `embed_texts` on its chunks
(the vectors carry no information the claims need, so only success/failure
is kept), and `collection.insert`.  The calls actually performed on the
vector store and the embedding backend are recorded as an event trace. -/

structure FileJob where
  name : List Char
  load : Except (List Char) (List Char)
  embed : Except (List Char) Unit
  insert : Except (List Char) Unit

inductive Ev where
  | embed (n : Nat)
  | insert (nm : List Char) (n : Nat)
  | flush
deriving DecidableEq

structure IngestReport where
  inserted : Nat
  files : List (List Char)
deriving DecidableEq

def sinTexto : List Char := " (sin texto)".toList

def errPre : List Char := " (ERROR: ".toList

def errPost : List Char := ")".toList

/-- The annotated status `f"{p.name} (ERROR: {e})"` without the name. -/
def errorNote (e : List Char) : List Char := errPre ++ e ++ errPost

/-- One file's pass through the `try` body of `ingest_path`/`ingest_files`
(src/api/main.py lines 176-189 and 201-214): its status string, its
contribution to the running `total` (the number of ids, one per chunk, of a
fully successful file), and the backend calls made for it. -/
def fileResult (cs ov : Nat) (mc : Option Nat) (f : FileJob) : List Char × Nat × List Ev :=
  match f.load with
  | .error e => (f.name ++ errorNote e, 0, [])
  | .ok raw =>
    let parts := chunk_text raw cs ov mc
    if parts = [] then (f.name ++ sinTexto, 0, [])
    else
      match f.embed with
      | .error e => (f.name ++ errorNote e, 0, [Ev.embed parts.length])
      | .ok _ =>
        match f.insert with
        | .error e => (f.name ++ errorNote e, 0, [Ev.embed parts.length,
            Ev.insert f.name parts.length])
        | .ok _ => (f.name, parts.length, [Ev.embed parts.length,
            Ev.insert f.name parts.length])

/-- The `for` loop of `ingest_path` (src/api/main.py lines 173-189):
accumulate each file's status into `files`, its chunk count into `total`,
and its backend calls into the trace; the `except Exception` at the file
boundary is what makes each iteration contribute exactly one status and
continue. -/
def ingestLoop (cs ov : Nat) (mc : Option Nat) :
    List FileJob → List (List Char) → Nat → List Ev →
      List (List Char) × Nat × List Ev
  | [], files, total, evs => (files, total, evs)
  | f :: rest, files, total, evs =>
    ingestLoop cs ov mc rest (files ++ [(fileResult cs ov mc f).1])
      (total + (fileResult cs ov mc f).2.1) (evs ++ (fileResult cs ov mc f).2.2)

/-- `ingest_path` (src/api/main.py lines 169-191): run the loop over the
eligible files with the default chunking parameters, flush once after the
loop, and return the report. -/
def ingest_path (fs : List FileJob) : IngestReport × List Ev :=
  (⟨(ingestLoop 1200 200 none fs [] 0 []).2.1, (ingestLoop 1200 200 none fs [] 0 []).1⟩,
   (ingestLoop 1200 200 none fs [] 0 []).2.2 ++ [Ev.flush])

/-- `ingest_files` (src/api/main.py lines 193-216): after saving each upload
to disk (I/O outside this model), its per-file loop, error annotation,
accumulation and single final flush are identical to `ingest_path`. -/
def ingest_files : List FileJob → IngestReport × List Ev := ingest_path

theorem ingestLoop_eq (cs ov : Nat) (mc : Option Nat) :
    ∀ fs files total evs,
      ingestLoop cs ov mc fs files total evs =
        (files ++ fs.map (fun f => (fileResult cs ov mc f).1),
         total + (fs.map (fun f => (fileResult cs ov mc f).2.1)).sum,
         evs ++ (fs.map (fun f => (fileResult cs ov mc f).2.2)).flatten) := by
  intro fs
  induction fs with
  | nil =>
    intro files total evs
    simp [ingestLoop]
  | cons f rest ih =>
    intro files total evs
    simp only [ingestLoop, List.map_cons, List.sum_cons, List.flatten]
    rw [ih]
    simp [List.append_assoc, Nat.add_assoc]

theorem fileResult_no_flush (cs ov : Nat) (mc : Option Nat) (f : FileJob) :
    Ev.flush ∉ (fileResult cs ov mc f).2.2 := by
  unfold fileResult
  rcases hload : f.load with e | raw
  · simp
  · by_cases hc : chunk_text raw cs ov mc = []
    · simp [hc]
    · rcases hemb : f.embed with e | u
      · simp [hc, hemb]
      · rcases hins : f.insert with e | u
        · simp [hc, hemb, hins]
        · simp [hc, hemb, hins]

/-- Claim C1: a batch ingestion run maps each file, independently of the
others, to exactly one status entry computed from that file's own pipeline
outcomes (errors annotated on the file, successes counted); the report lists
one entry per file, `inserted` is the sum of the successful files' chunk
counts, and the collection is flushed exactly once, after all files. -/
theorem c1_ingest_isolation (fs : List FileJob) :
    (ingest_path fs).1.files = fs.map (fun f => (fileResult 1200 200 none f).1) ∧
    (ingest_path fs).1.files.length = fs.length ∧
    (ingest_path fs).1.inserted =
      (fs.map (fun f => (fileResult 1200 200 none f).2.1)).sum ∧
    (ingest_path fs).2.count Ev.flush = 1 ∧
    (ingest_path fs).2.getLast? = some Ev.flush ∧
    ingest_files fs = ingest_path fs := by
  have h := ingestLoop_eq 1200 200 none fs [] 0 []
  have hnotin : Ev.flush ∉ ((fs.map fun f => (fileResult 1200 200 none f).2.2)).flatten := by
    intro hmem
    obtain ⟨l, hl, hfl⟩ := List.mem_flatten.mp hmem
    obtain ⟨f, _, hfeq⟩ := List.mem_map.mp hl
    rw [← hfeq] at hfl
    exact fileResult_no_flush 1200 200 none f hfl
  refine ⟨?_, ?_, ?_, ?_, ?_, rfl⟩
  · simp [ingest_path, h]
  · simp [ingest_path, h]
  · simp [ingest_path, h]
  · simp [ingest_path, h, List.count_append, List.count_eq_zero.mpr hnotin]
  · simp only [ingest_path, h]
    exact List.getLast?_concat _

def notFoundPre : List Char := "No existe: ".toList

def ingErrPre : List Char := "Ingest error ".toList

def colonSep : List Char := ": ".toList

/-- The 500 detail `f"Ingest error {p.name}: {e}"` of src/api/main.py
line 239. -/
def ingestErrMsg (nm e : List Char) : List Char := ingErrPre ++ nm ++ colonSep ++ e

/-- `ingest_one` (src/api/main.py lines 218-239): 404 when the file is
absent; otherwise load, chunk with the requested `max_chunks`, return a
no-text report without touching the backends when no chunks result, and
otherwise embed, insert and flush immediately, any failure becoming a 500
error for the whole call. -/
def ingest_one (present : Bool) (f : FileJob) (mc : Option Nat) :
    Except (List Char) (IngestReport × List Ev) :=
  if present = false then .error (notFoundPre ++ f.name)
  else
    match f.load with
    | .error e => .error (ingestErrMsg f.name e)
    | .ok raw =>
      if chunk_text raw 1200 200 mc = [] then .ok (⟨0, [f.name ++ sinTexto]⟩, [])
      else
        match f.embed with
        | .error e => .error (ingestErrMsg f.name e)
        | .ok _ =>
          match f.insert with
          | .error e => .error (ingestErrMsg f.name e)
          | .ok _ => .ok (⟨(chunk_text raw 1200 200 mc).length, [f.name]⟩,
              [Ev.embed (chunk_text raw 1200 200 mc).length,
               Ev.insert f.name (chunk_text raw 1200 200 mc).length, Ev.flush])

/-- Claim C10: on an existing supported file whose extracted text yields zero
chunks, `ingest_one` succeeds with `inserted = 0` and the single filename
annotated with the no-text marker, and performs no embedding, no insert and
no flush (the event trace is empty and the result does not consult the
`embed`/`insert` oracles). -/
theorem c10_ingest_one_no_text (f : FileJob) (mc : Option Nat) (raw : List Char)
    (hload : f.load = .ok raw) (hchunks : chunk_text raw 1200 200 mc = []) :
    ingest_one true f mc = .ok (⟨0, [f.name ++ sinTexto]⟩, []) := by
  unfold ingest_one
  rw [if_neg (by decide)]
  simp only [hload]
  rw [if_pos hchunks]

def c10name : List Char := "empty.txt".toList

def boomMsg : List Char := "boom".toList

def c10file : FileJob := ⟨c10name, Except.ok [], Except.error boomMsg, Except.error boomMsg⟩

/-- Witness for C10: a present file whose text is empty yields the no-text
report with an empty trace, even though its embed and insert oracles would
fail if consulted. -/
theorem c10_witness :
    ingest_one true c10file none = .ok (⟨0, [c10name ++ sinTexto]⟩, []) := by
  have h := c10_ingest_one_no_text c10file none [] rfl (by decide)
  exact h

end RagTfg
